import Mathlib

/-
  Verification development for the pyhumod modem library
  (src/humod/humodem.py).  The definitions below are a shallow
  embedding of the transactor (ModemPort.send / return_data), the
  interpreter dispatch loop, the queue feeder, the prober lifecycle
  controller and the modem connect / disconnect guards.  Streams of
  serial input are modelled as lists of the strings that readline
  would return; fallible operations return Except or an explicit
  outcome constructor.
-/

namespace Humod

/-- Python truthiness of an optional string argument: None and the
empty string are falsy, any other string is truthy. -/
def optTruthy : Option String → Bool
  | none => false
  | some s => s ≠ ""

/-- Characters removed by the Python str.rstrip method with no
argument: space, tab, newline, carriage return, vertical tab and
form feed. -/
def pyWhitespace (c : Char) : Bool :=
  c = ' ' || c = '\t' || c = '\n' || c = '\r' || c = '\x0b' || c = '\x0c'

/-- Python str.rstrip with no argument: drop trailing whitespace. -/
def rstrip (s : String) : String :=
  ⟨(s.data.reverse.dropWhile pyWhitespace).reverse⟩

/-- Python str.startswith on character sequences. -/
def strStartsWith (s p : String) : Bool :=
  List.isPrefixOf p.data s.data

/-- Python slicing s[n:] on character sequences. -/
def strDrop (s : String) (n : Nat) : String :=
  ⟨s.data.drop n⟩

/-- Python len on character sequences. -/
def strLength (s : String) : Nat :=
  s.data.length

/-- Modelled from the spec: a sample classified error vocabulary.
The real table lives in the module humod/errors (consulted through
errors.check_for_errors), which is absent from src/; the spec only
says it is an external, versioned table of vendor error tokens such
as numeric codes and NO CARRIER.  The transactor definitions below
take the vocabulary as a parameter `vocab : String → Bool`; this
concrete instance is used for the worked examples. -/
def exampleVocab (l : String) : Bool :=
  strStartsWith l "+CME ERROR" || strStartsWith l "+CMS ERROR" ||
  l = "ERROR" || l = "NO CARRIER" || l = "BUSY"

/-- Outcome of a transactor call.  errAbort corresponds to the
exception raised by errors.check_for_errors (it carries the
offending line and, by construction, no collected data); blocked
marks the input stream running out while readline would block. -/
inductive SendResult where
  | noReply : SendResult
  | reply (data : List String) : SendResult
  | errAbort (line : String) : SendResult
  | blocked : SendResult
  deriving DecidableEq, Repr

/-- ModemPort.return_data (src/humod/humodem.py lines 159-185).
Reads lines until the terminator OK; each line is right-stripped,
then checked against the error vocabulary, then compared with OK;
with a truthy command argument only lines starting with the command
text are kept, with their first length+2 characters removed,
otherwise every non-empty right-stripped line is kept.  The result
also carries the unconsumed remainder of the stream, so that the
statements can speak about which lines were read. -/
def return_data (vocab : String → Bool) (command : Option String)
    (acc : List String) : List String → SendResult × List String
  | [] => (SendResult.blocked, [])
  | line :: rest =>
    let l := rstrip line
    if vocab l then (SendResult.errAbort l, rest)
    else if l = "OK" then (SendResult.reply acc, rest)
    else if optTruthy command then
      let cmd := command.getD ""
      if strStartsWith l cmd then
        return_data vocab command (acc ++ [strDrop l (strLength cmd + 2)]) rest
      else
        return_data vocab command acc rest
    else
      if l = "" then return_data vocab command acc rest
      else return_data vocab command (acc ++ [l]) rest

/-- The text that ModemPort.send writes to the port: AT framing with
a trailing carriage return when at_cmd is truthy, the raw text
otherwise. -/
def writtenOf (text : String) (at_cmd : Option String) : String :=
  if optTruthy at_cmd then "AT" ++ text ++ "\r" else text

/-- ModemPort.send (src/humod/humodem.py lines 132-157).  Writes the
payload, reads the echoed line and checks it (not stripped) against
the error vocabulary; when wait is set it delegates to return_data
with at_cmd as the command, otherwise it returns no reply data.
The result is the written text, the outcome and the unconsumed
stream. -/
def send (vocab : String → Bool) (text : String) (wait : Bool)
    (at_cmd : Option String) (stream : List String) :
    String × SendResult × List String :=
  match stream with
  | [] => (writtenOf text at_cmd, SendResult.blocked, [])
  | echo :: rest =>
    if vocab echo then (writtenOf text at_cmd, SendResult.errAbort echo, rest)
    else if wait then
      let r := return_data vocab at_cmd [] rest
      (writtenOf text at_cmd, r.1, r.2)
    else (writtenOf text at_cmd, SendResult.noReply, rest)

/-- Interpreter.interpret (src/humod/humodem.py lines 42-54).  Rules
are (pattern, action) pairs; a pattern is modelled as a predicate on
the message (the source uses regex search), an action as a label of
type α.  The default action (actions.no_match in the source, from
the module humod/actions absent from src/) is a parameter.  The
result is the trace of invocations performed for this message, each
invocation being the fired action together with the message passed
to it. -/
def interpret {α : Type} (rules : List ((String → Bool) × α)) (a0 : α)
    (msg : String) : List (α × String) :=
  match rules with
  | [] => [(a0, msg)]
  | (p, a) :: rs => if p msg then [(a, msg)] else interpret rs a0 msg

/-- Queue.put of the standard FIFO queue: append at the tail. -/
def qput (q : List String) (m : String) : List String := q ++ [m]

/-- The queue contents after the producer has put the messages ms,
in order, into an initially empty queue. -/
def buildQueue (ms : List String) : List String := ms.foldl qput []

/-- Interpreter.run draining a queue: dequeue from the head, one
message at a time, and dispatch each through interpret, collecting
the invocation trace in dispatch order. -/
def interpreterDrain {α : Type} (rules : List ((String → Bool) × α))
    (a0 : α) : List String → List (α × String)
  | [] => []
  | m :: q => interpret rules a0 m ++ interpreterDrain rules a0 q

/-- Observable events of one QueueFeeder.run execution: lock
acquisition and release, a bounded-time line read returning the
given string (possibly empty on timeout), an enqueue of the given
string, and the 100 ms idle sleep. -/
inductive FeederEvent where
  | acquire : FeederEvent
  | read (line : String) : FeederEvent
  | enqueue (line : String) : FeederEvent
  | release : FeederEvent
  | idle : FeederEvent
  deriving DecidableEq, Repr

/-- QueueFeeder.run (src/humod/humodem.py lines 66-78) as an event
trace.  The list reads gives the successive results of the
bounded-time readline calls (an empty string models a timeout); the
loop runs one iteration per element, and each iteration acquires
the lock, reads, enqueues what was read, releases the lock in the
finally block and then sleeps, in that source order. -/
def feederRun : List String → List FeederEvent
  | [] => []
  | l :: rest =>
    FeederEvent.acquire :: FeederEvent.read l :: FeederEvent.enqueue l ::
      FeederEvent.release :: FeederEvent.idle :: feederRun rest

/-- The lines enqueued in a feeder event trace, in order. -/
def enqueuedOf : List FeederEvent → List String
  | [] => []
  | FeederEvent.enqueue l :: es => l :: enqueuedOf es
  | _ :: es => enqueuedOf es

/-- The lines read in a feeder event trace, in order. -/
def readsOf : List FeederEvent → List String
  | [] => []
  | FeederEvent.read l :: es => l :: readsOf es
  | _ :: es => readsOf es

/-- Lock discipline checker over a feeder event trace, given whether
the lock is currently held: acquisitions only while free, releases
only while held, reads and enqueues only while holding the lock,
idling only while not holding it. -/
def lockDisciplineOK : List FeederEvent → Bool → Bool
  | [], _ => true
  | FeederEvent.acquire :: es, held => !held && lockDisciplineOK es true
  | FeederEvent.release :: es, held => held && lockDisciplineOK es false
  | FeederEvent.read _ :: es, held => held && lockDisciplineOK es held
  | FeederEvent.enqueue _ :: es, held => held && lockDisciplineOK es held
  | FeederEvent.idle :: es, held => !held && lockDisciplineOK es held

/-- Checker that every enqueue in a feeder trace immediately follows
a read of the same line: the feeder enqueues exactly what it read,
unfiltered. -/
def enqueueFollowsRead : List FeederEvent → Bool
  | [] => true
  | FeederEvent.read l :: FeederEvent.enqueue m :: es =>
      (l == m) && enqueueFollowsRead es
  | FeederEvent.enqueue _ :: _ => false
  | _ :: es => enqueueFollowsRead es

/-- Program counter of the Interpreter.run loop: either at the loop
head about to test the active flag, or inside the blocking
queue.get call. -/
inductive IPC where
  | loopHead : IPC
  | inGet : IPC
  deriving DecidableEq, Repr

/-- State of one Interpreter thread: its program counter, the active
flag, the pending queue contents, and the trace of invocations
dispatched so far. -/
structure IState (α : Type) where
  pc : IPC
  active : Bool
  queue : List String
  dispatched : List (α × String)
  deriving DecidableEq, Repr

/-- One small step of Interpreter.run (src/humod/humodem.py lines
37-40).  At the loop head the active flag is tested: if clear, the
loop exits (no step).  Inside queue.get the thread is stuck while
the queue is empty; once a message is available the iteration
completes: the message is dequeued, dispatched through interpret,
and control returns to the loop head. -/
def interpStep {α : Type} (rules : List ((String → Bool) × α)) (a0 : α)
    (st : IState α) : Option (IState α) :=
  match st.pc with
  | IPC.loopHead =>
    if st.active then some { st with pc := IPC.inGet } else none
  | IPC.inGet =>
    match st.queue with
    | [] => none
    | m :: rest =>
      some { st with pc := IPC.loopHead, queue := rest,
                     dispatched := st.dispatched ++ interpret rules a0 m }

/-- Run the interpreter for up to n small steps, stopping early when
no step is enabled. -/
def interpRun {α : Type} (rules : List ((String → Bool) × α)) (a0 : α) :
    Nat → IState α → IState α
  | 0, st => st
  | n + 1, st =>
    match interpStep rules a0 st with
    | none => st
    | some st2 => interpRun rules a0 n st2

/-- Prober._stop_interpreter (src/humod/humodem.py lines 96-99):
clear the active flag of the interpreter, then put one empty-string
sentinel message on its queue. -/
def stopInterpreter {α : Type} (st : IState α) : IState α :=
  { st with active := false, queue := st.queue ++ [""] }

/-- Errors raised by the modelled code; only the usage error family
is needed by the claims (errors.HumodUsageError in the source). -/
inductive HumodError where
  | usage (msg : String) : HumodError
  deriving DecidableEq, Repr

/-- State of one Prober (src/humod/humodem.py lines 86-126) together
with the pieces of feeder and interpreter state its methods touch:
started corresponds to the _feeder attribute being set, the two
active flags belong to the live interpreter and feeder threads, the
queue is the shared message queue and written records what was
written to the control port. -/
structure ProberSt where
  started : Bool
  interpActive : Bool
  feederActive : Bool
  queue : List String
  written : List String
  deriving DecidableEq, Repr

/-- The calls Prober.stop performs, in source order. -/
inductive StopCall where
  | stopInterpreterCall : StopCall
  | stopFeederCall : StopCall
  | clearFeederMarker : StopCall
  deriving DecidableEq, Repr

/-- Prober.start (src/humod/humodem.py lines 106-117): raises
HumodUsageError when a feeder is already present, otherwise creates
and starts a fresh feeder and interpreter, both with their active
flag set. -/
def proberStart (st : ProberSt) : Except HumodError ProberSt :=
  if st.started then Except.error (HumodError.usage "Prober already started.")
  else Except.ok { st with started := true, interpActive := true,
                           feederActive := true }

/-- Prober.stop (src/humod/humodem.py lines 119-126): raises
HumodUsageError when no feeder is present, otherwise calls
_stop_interpreter (clear interpreter flag, enqueue the sentinel),
then QueueFeeder.stop (clear feeder flag, write a bare line
terminator to the control port), then clears the _feeder marker.
The returned call list records that source order. -/
def proberStop (st : ProberSt) :
    Except HumodError (ProberSt × List StopCall) :=
  if st.started then
    Except.ok
      ({ st with started := false,
                 interpActive := false, queue := st.queue ++ [""],
                 feederActive := false, written := st.written ++ ["\r\n"] },
       [StopCall.stopInterpreterCall, StopCall.stopFeederCall,
        StopCall.clearFeederMarker])
  else Except.error (HumodError.usage "Prober not started.")

/-- Modem.connect (src/humod/humodem.py lines 239-260): when a pppd
process id is already tracked the call raises HumodUsageError;
otherwise it dials and, if the status line read back starts with
CONNECT, forks pppd and records its process id.  The dial sequence
and fork are external I/O, abstracted as the status line read back
and the process id the fork would return. -/
def modemConnect (pppd_pid : Option Nat) (status : String)
    (forkPid : Nat) : Except HumodError (Option Nat) :=
  match pppd_pid with
  | some _ => Except.error (HumodError.usage "Modem is already connected.")
  | none =>
    if strStartsWith status "CONNECT" then Except.ok (some forkPid)
    else Except.ok none

/-- Modem.disconnect (src/humod/humodem.py lines 262-268): when a
pppd process id is tracked it is signalled and cleared, otherwise
the call raises HumodUsageError. -/
def modemDisconnect (pppd_pid : Option Nat) :
    Except HumodError (Option Nat) :=
  match pppd_pid with
  | some _ => Except.ok none
  | none => Except.error (HumodError.usage "Not connected.")

/-- Interpreter.interpret with failing actions: an action is a
function from the message to Except, an error modelling a raised
exception.  Translation of src/humod/humodem.py lines 42-54; there
is no handler around the action call. -/
def interpretE
    (rules : List ((String → Bool) × (String → Except String Unit)))
    (defaultAct : String → Except String Unit) (msg : String) :
    Except String Unit :=
  match rules with
  | [] => defaultAct msg
  | (p, a) :: rs => if p msg then a msg else interpretE rs defaultAct msg

/-- Interpreter.run over a list of pending messages with failing
actions: each message is dispatched in turn; an error raised by a
dispatched action propagates out of interpret and out of run,
terminating the loop.  The result is the list of messages that were
dispatched and the error that killed the loop, if any. -/
def interpLoopE
    (rules : List ((String → Bool) × (String → Except String Unit)))
    (defaultAct : String → Except String Unit) :
    List String → List String × Option String
  | [] => ([], none)
  | m :: rest =>
    match interpretE rules defaultAct m with
    | Except.error e => ([m], some e)
    | Except.ok _ =>
      let r := interpLoopE rules defaultAct rest
      (m :: r.1, r.2)

/-- Exactly one invocation is performed per interpreted message. -/
theorem interpret_length_one {α : Type} (rules : List ((String → Bool) × α))
    (a0 : α) (msg : String) : (interpret rules a0 msg).length = 1 := by
  induction rules with
  | nil => rfl
  | cons r rs ih =>
    obtain ⟨p, a⟩ := r
    by_cases h : p msg <;> simp [interpret, h, ih]

/-- Every invocation performed for a message carries that message. -/
theorem interpret_msg {α : Type} (rules : List ((String → Bool) × α))
    (a0 : α) (msg : String) :
    (interpret rules a0 msg).map Prod.snd = [msg] := by
  induction rules with
  | nil => rfl
  | cons r rs ih =>
    obtain ⟨p, a⟩ := r
    by_cases h : p msg <;> simp [interpret, h, ih]

/-- The first rule whose pattern matches fires, with the message as
argument, and later rules are irrelevant. -/
theorem interpret_first_match {α : Type} (a0 : α) (msg : String)
    (pre : List ((String → Bool) × α)) (r : (String → Bool) × α)
    (post : List ((String → Bool) × α))
    (hpre : ∀ x ∈ pre, x.1 msg = false) (hr : r.1 msg = true) :
    interpret (pre ++ r :: post) a0 msg = [(r.2, msg)] := by
  induction pre with
  | nil =>
    obtain ⟨p, a⟩ := r
    have hp : p msg = true := hr
    simp [interpret, hp]
  | cons q qs ih =>
    obtain ⟨p, a⟩ := q
    have hq : p msg = false := hpre (p, a) (by simp)
    simp only [List.cons_append, interpret, hq, Bool.false_eq_true, if_false]
    exact ih fun x hx => hpre x (by simp [hx])

/-- When no pattern matches, the default action fires with the
message as argument. -/
theorem interpret_no_match {α : Type} (rules : List ((String → Bool) × α))
    (a0 : α) (msg : String) (h : ∀ x ∈ rules, x.1 msg = false) :
    interpret rules a0 msg = [(a0, msg)] := by
  induction rules with
  | nil => rfl
  | cons r rs ih =>
    obtain ⟨p, a⟩ := r
    have hr : p msg = false := h (p, a) (by simp)
    simp only [interpret, hr, Bool.false_eq_true, if_false]
    exact ih fun x hx => h x (by simp [hx])

/-- Folding put over a queue appends the messages in order. -/
theorem foldl_qput (ms acc : List String) :
    List.foldl qput acc ms = acc ++ ms := by
  induction ms generalizing acc with
  | nil => simp
  | cons m rest ih => simp [qput, ih]

/-- The queue built by putting ms into the empty queue is ms. -/
theorem buildQueue_eq (ms : List String) : buildQueue ms = ms := by
  simpa using foldl_qput ms []

/-- The feeder enqueues exactly the lines it reads, in order. -/
theorem enqueuedOf_feederRun (reads : List String) :
    enqueuedOf (feederRun reads) = reads := by
  induction reads with
  | nil => rfl
  | cons l rest ih => simp [feederRun, enqueuedOf, ih]

/-- The reads recorded by a feeder run are its input lines. -/
theorem readsOf_feederRun (reads : List String) :
    readsOf (feederRun reads) = reads := by
  induction reads with
  | nil => rfl
  | cons l rest ih => simp [feederRun, readsOf, ih]

/-- A feeder run respects the lock discipline, starting without the
lock held. -/
theorem lockDisciplineOK_feederRun (reads : List String) :
    lockDisciplineOK (feederRun reads) false = true := by
  induction reads with
  | nil => rfl
  | cons l rest ih => simp [feederRun, lockDisciplineOK, ih]

/-- In a feeder run, every enqueue immediately follows a read of the
same line. -/
theorem enqueueFollowsRead_feederRun (reads : List String) :
    enqueueFollowsRead (feederRun reads) = true := by
  induction reads with
  | nil => rfl
  | cons l rest ih => simp [feederRun, enqueueFollowsRead, ih]

/-- Draining a queue dispatches each message once, in queue order. -/
theorem interpreterDrain_msgs {α : Type}
    (rules : List ((String → Bool) × α)) (a0 : α) (q : List String) :
    (interpreterDrain rules a0 q).map Prod.snd = q := by
  induction q with
  | nil => rfl
  | cons m rest ih => simp [interpreterDrain, interpret_msg, ih]

/-- A state with no enabled step is a fixed point of interpRun. -/
theorem interpRun_stuck {α : Type} (rules : List ((String → Bool) × α))
    (a0 : α) (n : Nat) (st : IState α)
    (h : interpStep rules a0 st = none) : interpRun rules a0 n st = st := by
  cases n with
  | zero => rfl
  | succ m => simp [interpRun, h]

/-- Any classified error line aborts return_data at once, discarding
the accumulator and leaving the remaining stream unread. -/
theorem return_data_error (vocab : String → Bool) (cmd : Option String)
    (line : String) (hl : vocab (rstrip line) = true)
    (pre : List String)
    (hpre : ∀ l ∈ pre, vocab (rstrip l) = false ∧ rstrip l ≠ "OK")
    (acc rest2 : List String) :
    return_data vocab cmd acc (pre ++ line :: rest2) =
      (SendResult.errAbort (rstrip line), rest2) := by
  induction pre generalizing acc with
  | nil => simp [return_data, hl]
  | cons p ps ih =>
    have hp := hpre p (by simp)
    have hps : ∀ l ∈ ps, vocab (rstrip l) = false ∧ rstrip l ≠ "OK" :=
      fun l hm => hpre l (by simp [hm])
    simp only [List.cons_append, return_data, hp.1, Bool.false_eq_true,
      if_false, hp.2]
    split
    · split
      · exact ih hps _
      · exact ih hps _
    · split
      · exact ih hps _
      · exact ih hps _

/-- Success path of return_data with a truthy command: the reply is
the accumulator followed by the retained body lines, a line being
retained exactly when its right-stripped form starts with the
command text, with its first length+2 characters removed. -/
theorem return_data_command (vocab : String → Bool) (cmd : String)
    (hcmd : cmd ≠ "") (hok : vocab "OK" = false) (body : List String)
    (hbody : ∀ l ∈ body, vocab (rstrip l) = false ∧ rstrip l ≠ "OK")
    (acc rest : List String) :
    return_data vocab (some cmd) acc (body ++ "OK" :: rest) =
      (SendResult.reply (acc ++ body.filterMap (fun l =>
        if strStartsWith (rstrip l) cmd then
          some (strDrop (rstrip l) (strLength cmd + 2))
        else none)), rest) := by
  induction body generalizing acc with
  | nil =>
    have hOK : rstrip "OK" = "OK" := rfl
    simp [return_data, hOK, hok]
  | cons p ps ih =>
    have hp := hbody p (by simp)
    have hps : ∀ l ∈ ps, vocab (rstrip l) = false ∧ rstrip l ≠ "OK" :=
      fun l hm => hbody l (by simp [hm])
    have htruthy : optTruthy (some cmd) = true := by
      simp [optTruthy, hcmd]
    simp only [List.cons_append, return_data, hp.1, Bool.false_eq_true,
      if_false, hp.2, htruthy, if_true, Option.getD_some]
    by_cases hs : strStartsWith (rstrip p) cmd
    · simp only [hs, if_true]
      exact (ih hps _).trans (by simp [List.filterMap_cons, hs])
    · simp only [hs, Bool.false_eq_true, if_false]
      exact (ih hps _).trans (by simp [List.filterMap_cons, hs])

/-- Success path of return_data with no command: the reply is the
accumulator followed by the right-stripped forms of the body lines
whose right-stripped form is non-empty. -/
theorem return_data_nocmd (vocab : String → Bool)
    (hok : vocab "OK" = false) (body : List String)
    (hbody : ∀ l ∈ body, vocab (rstrip l) = false ∧ rstrip l ≠ "OK")
    (acc rest : List String) :
    return_data vocab none acc (body ++ "OK" :: rest) =
      (SendResult.reply (acc ++ body.filterMap (fun l =>
        if rstrip l = "" then none else some (rstrip l))), rest) := by
  induction body generalizing acc with
  | nil =>
    have hOK : rstrip "OK" = "OK" := rfl
    simp [return_data, hOK, hok]
  | cons p ps ih =>
    have hp := hbody p (by simp)
    have hps : ∀ l ∈ ps, vocab (rstrip l) = false ∧ rstrip l ≠ "OK" :=
      fun l hm => hbody l (by simp [hm])
    simp only [List.cons_append, return_data, hp.1, Bool.false_eq_true,
      if_false, hp.2, optTruthy]
    by_cases he : rstrip p = ""
    · simp only [he, if_true]
      exact (ih hps _).trans (by simp [List.filterMap_cons, he])
    · simp only [he, if_false]
      exact (ih hps _).trans (by simp [List.filterMap_cons, he])

/-- C1: during a transactor call every line, starting with the
echoed line, is checked against the classified error vocabulary
before the terminator comparison and before any retention decision;
on a match the call aborts at once with the classified error, no
further line of the stream is consumed, and everything collected so
far is discarded, so no partial result is returned. -/
theorem c1_error_scan_aborts (vocab : String → Bool) (text : String)
    (at_cmd : Option String) (echo line : String)
    (stream pre rest2 acc : List String) :
    (vocab echo = true →
      send vocab text true at_cmd (echo :: stream) =
        (writtenOf text at_cmd, SendResult.errAbort echo, stream)) ∧
    ((∀ l ∈ pre, vocab (rstrip l) = false ∧ rstrip l ≠ "OK") →
      vocab (rstrip line) = true →
      return_data vocab at_cmd acc (pre ++ line :: rest2) =
        (SendResult.errAbort (rstrip line), rest2)) := by
  constructor
  · intro h
    simp [send, h]
  · intro hpre hl
    exact return_data_error vocab at_cmd line hl pre hpre acc rest2

/-- C1 witness: the echoed classified error line makes send abort
with that line, leaving the OK unread; a classified error line in
the middle of a response stream makes return_data abort, discarding
the data already collected and leaving the remaining lines unread. -/
theorem c1_error_scan_aborts_witness :
    send exampleVocab "+CFUN?" true (some "+CFUN") ["+CME ERROR: 3", "OK"] =
      ("AT+CFUN?\r", SendResult.errAbort "+CME ERROR: 3", ["OK"]) ∧
    return_data exampleVocab (some "+CFUN") ["kept"]
        (["data1"] ++ "+CME ERROR: 3" :: ["more", "OK"]) =
      (SendResult.errAbort "+CME ERROR: 3", ["more", "OK"]) := by
  have h := c1_error_scan_aborts exampleVocab "+CFUN?" (some "+CFUN")
    "+CME ERROR: 3" "+CME ERROR: 3" ["OK"] ["data1"] ["more", "OK"] ["kept"]
  exact ⟨(h.1 (by decide)).trans (by decide),
         (h.2 (by decide) (by decide)).trans (by decide)⟩

/-- C2 counterexample: with commandPrefix plus CSQ, the line
+CSQ=99 does not begin with the prefix followed by the colon-space
separator, yet the transactor retains it (as the string 9, its
first six characters removed), so the claim that exactly the lines
beginning with prefix, colon, space are retained is false. -/
theorem c2_counterexample :
    return_data exampleVocab (some "+CSQ") [] ["+CSQ=99", "OK"] =
      (SendResult.reply ["9"], []) ∧
    strStartsWith "+CSQ=99" "+CSQ: " = false ∧
    (["9"] : List String) ≠ [] := by
  refine ⟨by decide, by decide, by decide⟩

/-- C2 amended: with a truthy commandPrefix cmd, the transactor
retains exactly those response lines whose right-stripped form
begins with cmd itself (not necessarily followed by the colon-space
separator), each returned with its first length cmd plus two
characters removed — which strips the prefix and the separator on
lines of the form cmd, colon, space, value — and silently discards
every other line; for commandPrefix +CSQ and the stream of the
claim the result is the single string 5,99. -/
theorem c2_prefix_retention (vocab : String → Bool) (cmd : String)
    (body rest : List String) (hcmd : cmd ≠ "")
    (hok : vocab "OK" = false)
    (hbody : ∀ l ∈ body, vocab (rstrip l) = false ∧ rstrip l ≠ "OK") :
    return_data vocab (some cmd) [] (body ++ "OK" :: rest) =
      (SendResult.reply (body.filterMap (fun l =>
        if strStartsWith (rstrip l) cmd then
          some (strDrop (rstrip l) (strLength cmd + 2))
        else none)), rest) := by
  simpa using return_data_command vocab cmd hcmd hok body hbody [] rest

/-- C2 witness: the worked example of the claim, instantiated from
the amended theorem. -/
theorem c2_prefix_retention_witness :
    return_data exampleVocab (some "+CSQ") []
        (["+CSQ: 5,99", "garbage"] ++ "OK" :: []) =
      (SendResult.reply ["5,99"], []) := by
  have h := c2_prefix_retention exampleVocab "+CSQ" ["+CSQ: 5,99", "garbage"]
    [] (by decide) (by decide) (by decide)
  exact h.trans (by decide)

/-- C3: for every interpreted message exactly one action fires; the
rules are evaluated in their fixed order and the first rule whose
pattern matches has its action invoked with the message, later
rules being ignored; when no rule matches, the default action is
invoked exactly once with the message. -/
theorem c3_first_match_wins {α : Type} (rules : List ((String → Bool) × α))
    (a0 : α) (msg : String) :
    (interpret rules a0 msg).length = 1 ∧
    (∀ pre r post, rules = pre ++ r :: post →
      (∀ x ∈ pre, x.1 msg = false) → r.1 msg = true →
      interpret rules a0 msg = [(r.2, msg)]) ∧
    ((∀ x ∈ rules, x.1 msg = false) →
      interpret rules a0 msg = [(a0, msg)]) := by
  refine ⟨interpret_length_one rules a0 msg, ?_, interpret_no_match rules a0 msg⟩
  intro pre r post hsplit hpre hr
  rw [hsplit]
  exact interpret_first_match a0 msg pre r post hpre hr

/-- C3 witness: with rule A matching the literal RING before rule B
matching any RI prefix, the message RING fires action A only; a
message matching no rule fires the default action. -/
theorem c3_first_match_wins_witness :
    interpret [(fun m => m == "RING", (0 : Nat)),
               (fun m => strStartsWith m "RI", 1)] 9 "RING" =
      [(0, "RING")] ∧
    interpret [(fun m => m == "RING", (0 : Nat)),
               (fun m => strStartsWith m "RI", 1)] 9 "HELLO" =
      [(9, "HELLO")] := by
  constructor
  · exact (c3_first_match_wins
      [(fun m => m == "RING", (0 : Nat)),
       (fun m => strStartsWith m "RI", 1)] 9 "RING").2.1
      [] (fun m => m == "RING", 0)
      [(fun m => strStartsWith m "RI", 1)] rfl
      (by intro x hx; simp at hx) (by decide)
  · refine (c3_first_match_wins
      [(fun m => m == "RING", (0 : Nat)),
       (fun m => strStartsWith m "RI", 1)] 9 "HELLO").2.2 ?_
    intro x hx
    rcases hx with _ | ⟨_, hx2⟩
    · decide
    · rcases hx2 with _ | ⟨_, hx3⟩
      · decide
      · cases hx3

/-- C4: enqueue order is dequeue order: the queue built by the
producer putting messages m1 to mn holds them in that order, the
feeder enqueues its reads in read order, and the interpreter
draining the queue dispatches the messages in exactly that order. -/
theorem c4_fifo {α : Type} (rules : List ((String → Bool) × α)) (a0 : α)
    (ms : List String) :
    buildQueue ms = ms ∧
    enqueuedOf (feederRun ms) = ms ∧
    (interpreterDrain rules a0 (buildQueue ms)).map Prod.snd = ms := by
  refine ⟨buildQueue_eq ms, enqueuedOf_feederRun ms, ?_⟩
  rw [buildQueue_eq]
  exact interpreterDrain_msgs rules a0 ms

/-- C5: stopping the interpreter clears its active flag and then
enqueues one empty-string sentinel; from an interpreter blocked in
a pending dequeue, the sentinel is still run through full dispatch
(the in-flight iteration completes) before the loop head observes
the clear flag, after which no step is enabled: exactly one further
dispatch, of the sentinel, happens and then nothing more. -/
theorem c5_stop_sentinel {α : Type} (rules : List ((String → Bool) × α))
    (a0 : α) (tr : List (α × String)) (n : Nat) (hn : 2 ≤ n) :
    stopInterpreter (⟨IPC.inGet, true, [], tr⟩ : IState α) =
      ⟨IPC.inGet, false, [""], tr⟩ ∧
    interpRun rules a0 n (stopInterpreter ⟨IPC.inGet, true, [], tr⟩) =
      ⟨IPC.loopHead, false, [], tr ++ interpret rules a0 ""⟩ ∧
    (tr ++ interpret rules a0 "").length = tr.length + 1 ∧
    interpStep rules a0
      (⟨IPC.loopHead, false, [], tr ++ interpret rules a0 ""⟩ : IState α) =
      none := by
  obtain ⟨m, rfl⟩ : ∃ m, n = m + 2 := ⟨n - 2, by omega⟩
  have h2 : interpStep rules a0
      (⟨IPC.loopHead, false, [], tr ++ interpret rules a0 ""⟩ : IState α) =
      none := rfl
  refine ⟨rfl, ?_, by simp [interpret_length_one], h2⟩
  calc interpRun rules a0 (m + 2)
          (stopInterpreter ⟨IPC.inGet, true, [], tr⟩)
      = interpRun rules a0 (m + 1)
          ⟨IPC.loopHead, false, [], tr ++ interpret rules a0 ""⟩ := by
        simp [stopInterpreter, interpRun, interpStep]
    _ = ⟨IPC.loopHead, false, [], tr ++ interpret rules a0 ""⟩ :=
        interpRun_stuck rules a0 (m + 1) _ h2

/-- C5 witness: with no rules and default action 0, the stopped
interpreter performs exactly the sentinel dispatch and halts. -/
theorem c5_stop_sentinel_witness :
    interpRun ([] : List ((String → Bool) × Nat)) 0 2
        (stopInterpreter ⟨IPC.inGet, true, [], []⟩) =
      ⟨IPC.loopHead, false, [], [((0 : Nat), "")]⟩ := by
  exact (c5_stop_sentinel ([] : List ((String → Bool) × Nat)) 0 [] 2
    (by omega)).2.1

/-- C6: starting an already started prober fails with the usage
error, stopping a never started or already stopped prober fails
with the usage error, a successful stop performs the interpreter
stop, then the feeder stop, then clears the started marker (so a
subsequent start succeeds), and connect while connected and
disconnect while not connected fail with the usage error. -/
theorem c6_usage_guards (st : ProberSt) (pid forkPid : Nat)
    (status : String) :
    (st.started = false →
      proberStop st =
        Except.error (HumodError.usage "Prober not started.")) ∧
    (st.started = false →
      proberStart st = Except.ok
        { st with
            started := true, interpActive := true, feederActive := true } ∧
      proberStart
        { st with
            started := true, interpActive := true, feederActive := true } =
        Except.error (HumodError.usage "Prober already started.") ∧
      proberStop
        { st with
            started := true, interpActive := true, feederActive := true } =
        Except.ok
          ({ st with
              started := false, interpActive := false,
              feederActive := false, queue := st.queue ++ [""],
              written := st.written ++ ["\r\n"] },
           [StopCall.stopInterpreterCall, StopCall.stopFeederCall,
            StopCall.clearFeederMarker]) ∧
      proberStart
        { st with
            started := false, interpActive := false, feederActive := false,
            queue := st.queue ++ [""],
            written := st.written ++ ["\r\n"] } =
        Except.ok
          { st with
              started := true, interpActive := true, feederActive := true,
              queue := st.queue ++ [""],
              written := st.written ++ ["\r\n"] }) ∧
    modemConnect (some pid) status forkPid =
      Except.error (HumodError.usage "Modem is already connected.") ∧
    modemDisconnect (none : Option Nat) =
      Except.error (HumodError.usage "Not connected.") := by
  refine ⟨?_, ?_, rfl, rfl⟩
  · intro h
    simp [proberStop, h]
  · intro h
    refine ⟨by simp [proberStart, h], by simp [proberStart], ?_, ?_⟩
    · simp [proberStop]
    · simp [proberStart]

/-- C6 witness: the guards exercised on a concrete fresh prober
state and concrete connection states. -/
theorem c6_usage_guards_witness :
    proberStop ⟨false, false, false, [], []⟩ =
      Except.error (HumodError.usage "Prober not started.") ∧
    (proberStart ⟨false, false, false, [], []⟩ =
        Except.ok ⟨true, true, true, [], []⟩ ∧
      proberStart ⟨true, true, true, [], []⟩ =
        Except.error (HumodError.usage "Prober already started.") ∧
      proberStop ⟨true, true, true, [], []⟩ =
        Except.ok (⟨false, false, false, [""], ["\r\n"]⟩,
          [StopCall.stopInterpreterCall, StopCall.stopFeederCall,
           StopCall.clearFeederMarker]) ∧
      proberStart ⟨false, false, false, [""], ["\r\n"]⟩ =
        Except.ok ⟨true, true, true, [""], ["\r\n"]⟩) ∧
    modemConnect (some 7) "NO CARRIER" 3 =
      Except.error (HumodError.usage "Modem is already connected.") ∧
    modemDisconnect (none : Option Nat) =
      Except.error (HumodError.usage "Not connected.") := by
  have h := c6_usage_guards ⟨false, false, false, [], []⟩ 7 3 "NO CARRIER"
  exact ⟨h.1 rfl, h.2.1 rfl, h.2.2.1, h.2.2.2⟩

/-- C7: every feeder iteration acquires the lock, then performs one
read, then enqueues exactly what was read (an empty read included,
unfiltered), then releases the lock, and only idles after the
release: the run respects the lock discipline (reads and enqueues
only while holding the lock, idling never while holding it), every
enqueue immediately follows the read of the same line, and the
reads and enqueues are exactly the input lines in order. -/
theorem c7_feeder_lock_discipline (reads : List String) :
    lockDisciplineOK (feederRun reads) false = true ∧
    enqueueFollowsRead (feederRun reads) = true ∧
    readsOf (feederRun reads) = reads ∧
    enqueuedOf (feederRun reads) = reads :=
  ⟨lockDisciplineOK_feederRun reads, enqueueFollowsRead_feederRun reads,
   readsOf_feederRun reads, enqueuedOf_feederRun reads⟩

/-- C8 counterexample: a trailing space falsifies the verbatim part
of the claim: the line is retained right-stripped, not verbatim. -/
theorem c8_counterexample :
    return_data exampleVocab none [] ["hello ", "OK"] =
      (SendResult.reply ["hello"], []) ∧
    SendResult.reply ["hello"] ≠ SendResult.reply ["hello "] := by
  refine ⟨by decide, by decide⟩

/-- C8 amended: with no commandPrefix, each response line is first
right-stripped; lines whose right-stripped form is non-empty are
retained in that right-stripped form, the rest are dropped, and the
right-stripped terminator OK is not retained and ends the loop
successfully; the claimed example holds because its lines carry no
trailing whitespace. -/
theorem c8_noprefix_retention (vocab : String → Bool)
    (body rest : List String) (hok : vocab "OK" = false)
    (hbody : ∀ l ∈ body, vocab (rstrip l) = false ∧ rstrip l ≠ "OK") :
    return_data vocab none [] (body ++ "OK" :: rest) =
      (SendResult.reply (body.filterMap (fun l =>
        if rstrip l = "" then none else some (rstrip l))), rest) := by
  simpa using return_data_nocmd vocab hok body hbody [] rest

/-- C8 witness: the worked example of the claim, instantiated from
the amended theorem. -/
theorem c8_noprefix_retention_witness :
    return_data exampleVocab none [] (["hello", "", "world"] ++ "OK" :: []) =
      (SendResult.reply ["hello", "world"], []) := by
  have h := c8_noprefix_retention exampleVocab ["hello", "", "world"] []
    (by decide) (by decide)
  exact h.trans (by decide)

/-- C9 counterexample: an action that raises on BOOM terminates the
run loop, so a following message RING is never dispatched — the
claim that the failure is caught and processing continues with the
next message is false for the source. -/
theorem c9_counterexample :
    interpLoopE [(fun m => m == "BOOM", fun _ => Except.error "boom")]
        (fun _ => Except.ok ()) ["BOOM", "RING"] = (["BOOM"], some "boom") ∧
    "RING" ∉ (interpLoopE
        [(fun m => m == "BOOM", fun _ => Except.error "boom")]
        (fun _ => Except.ok ()) ["BOOM", "RING"]).1 := by
  refine ⟨rfl, by decide⟩

/-- C9 amended: a failure raised by a dispatched action is not
caught by the interpreter: it propagates out of interpret and
terminates the run loop, and no subsequent message is dispatched
(catch, report and continue is a hardening requirement of the
specification for the reimplementation, not source behavior). -/
theorem c9_action_failure_kills_loop
    (rules : List ((String → Bool) × (String → Except String Unit)))
    (defaultAct : String → Except String Unit) (pre : List String)
    (m : String) (rest : List String) (e : String)
    (hpre : ∀ x ∈ pre, interpretE rules defaultAct x = Except.ok ())
    (hm : interpretE rules defaultAct m = Except.error e) :
    interpLoopE rules defaultAct (pre ++ m :: rest) =
      (pre ++ [m], some e) := by
  induction pre with
  | nil => simp [interpLoopE, hm]
  | cons p ps ih =>
    have hp := hpre p (by simp)
    have hps : ∀ x ∈ ps, interpretE rules defaultAct x = Except.ok () :=
      fun x hx => hpre x (by simp [hx])
    simp only [List.cons_append, interpLoopE, hp, List.append_eq]
    rw [ih hps]

/-- C9 witness: the amended behavior at a concrete input: the clean
message is dispatched, the failing one kills the loop, the message
after it is never dispatched. -/
theorem c9_action_failure_kills_loop_witness :
    interpLoopE [(fun m => m == "BOOM", fun _ => Except.error "boom")]
        (fun _ => Except.ok ()) (["off"] ++ "BOOM" :: ["RING"]) =
      (["off"] ++ ["BOOM"], some "boom") := by
  refine c9_action_failure_kills_loop _ _ ["off"] "BOOM" ["RING"] "boom"
    ?_ rfl
  intro x hx
  simp only [List.mem_singleton] at hx
  subst hx
  rfl

/-- C10: a transactor call with the reply flag unset still writes
the payload (AT-framed when at_cmd is truthy), reads exactly the
echoed line, aborts with the classified error when that line is in
the error vocabulary and otherwise produces no reply data, reading
no further lines. -/
theorem c10_send_no_wait (vocab : String → Bool) (text : String)
    (at_cmd : Option String) (echo : String) (rest : List String) :
    send vocab text false at_cmd (echo :: rest) =
      (writtenOf text at_cmd,
       if vocab echo then SendResult.errAbort echo else SendResult.noReply,
       rest) := by
  cases h : vocab echo <;> simp [send, h]

end Humod
